import Mathlib

/-!
Verification of the polytope utilities of AI-Toolbox
(src/include/AIToolbox/Utils/Polytope.hpp): the naive vertex enumeration
algorithm `findVerticesNaive` and the LP-based optimistic bound
`computeOptimisticValue`.

Reals are embedded as rationals; vectors and matrices are lists. The two
external capabilities used by the header (the subset enumerator from
Combinatorics.hpp, the linear-system solver, and the LP solver) are not part
of the shown source and are modelled from the specification; the solvers are
kept as explicit function parameters so that every theorem about the
control flow of the header holds for an arbitrary solver.
-/

namespace AIToolbox

/-- A point or hyperplane: an ordered list of rational coefficients. -/
abbrev Vec := List ℚ

/-- Dot product of two coefficient lists (of equal intended length). -/
def dot (a b : Vec) : ℚ := (List.zipWith (· * ·) a b).sum

namespace SubsetEnumerator

/-- Modelled from the spec: the Subset Enumerator (Combinatorics.hpp is not in
the shown source) is "constructed with a subset size k and a total universe
size n"; reset moves "to the lexicographically first subset", which is the
identity list `[0, 1, ..., k-1]`. -/
def reset (k : ℕ) : List ℕ := List.range k

/-- Modelled from the spec: "validity check (whether a current subset exists)";
the state after the last subset has been advanced past the end, so validity is
checked as the last index still lying inside the universe `[0, n)`. -/
def isValid (ids : List ℕ) (n : ℕ) : Bool := decide (ids.getLast?.getD n < n)

/-- The rightmost position of the current subset whose entry is not yet at its
maximal value `n - k + p`; 0 when every position is saturated. This is the
position where the lexicographic successor differs first. -/
def lastUnsat (ids : List ℕ) (n : ℕ) : ℕ :=
  (List.range ids.length).foldl
    (fun acc p => if ids.getD p 0 ≠ n - ids.length + p then p else acc) 0

/-- Modelled from the spec: "advance to the next subset in lexicographic
order, returning the position of the first index that changed". The entry at
the first non-saturated position (from the right) is incremented and all later
entries become consecutive successors. -/
def advance (ids : List ℕ) (n : ℕ) : List ℕ × ℕ :=
  match ids with
  | [] => ([], 0)
  | _ :: _ =>
    (ids.take (lastUnsat ids n) ++
      (List.range (ids.length - lastUnsat ids n)).map
        (fun j => ids.getD (lastUnsat ids n) 0 + 1 + j),
     lastUnsat ids n)

end SubsetEnumerator

/-- The `(subset, last)` pairs processed by the inner `while` loop of
`findVerticesNaive` (Polytope.hpp lines 74-118): while the enumerator is
valid, the current subset is processed together with `last`, the first changed
position reported by the previous `advance`; after advancing, the loop breaks
when the entry at the newly changed position refers past the old-hyperplane
count (`if ((*enumerator)[last] >= alphasSize) break;`). Fuel bounds the
number of iterations; `Nat.choose n k + 1` is enough because the enumerator is
strictly lexicographically increasing. -/
def vertexIter (n A : ℕ) : ℕ → List ℕ → ℕ → List (List ℕ × ℕ)
  | 0, _, _ => []
  | fuel + 1, ids, last =>
    if SubsetEnumerator.isValid ids n then
      (ids, last) ::
        (if A ≤ (SubsetEnumerator.advance ids n).1.getD (SubsetEnumerator.advance ids n).2 0
         then []
         else vertexIter n A fuel (SubsetEnumerator.advance ids n).1
                (SubsetEnumerator.advance ids n).2)
    else []

/-- The complete trace of subset/last pairs the inner loop of
`findVerticesNaive` evaluates, for dimension `S` and `A` old hyperplanes:
subsets have size `S - 1` drawn from the universe `[0, A + S)`. -/
def subsetTrace (S A : ℕ) : List (List ℕ × ℕ) :=
  vertexIter (A + S) A (Nat.choose (A + S) (S - 1) + 1) (SubsetEnumerator.reset (S - 1)) 0

/-- The subset entries actually copied into the matrix in one loop iteration:
the copy loop starts at position `last` (`for (auto i = last; ...)`) and only
entries below `alphasSize` select an old hyperplane row. -/
def alphaIdxs (A : ℕ) (ids : List ℕ) (last : ℕ) : List ℕ :=
  (ids.drop last).filter (· < A)

/-- The value of `counter` when the boundary row is written
(`m.row(counter) = boundary; b[counter] = 1.0;`): `counter` starts at 1 and is
incremented once per old-hyperplane row copied. -/
def rowCounterFinal (A : ℕ) (ids : List ℕ) (last : ℕ) : ℕ :=
  1 + (alphaIdxs A ids last).length

/-- The shared boundary row: entry `j` is zeroed when the subset (from
position `last` on) contains the boundary index `j + alphasSize`
(`boundary[index - alphasSize] = 0.0`), and the trailing value column is 0. -/
def boundaryRow (S A : ℕ) (ids : List ℕ) (last : ℕ) : Vec :=
  ((List.range S).map fun j => if j + A ∈ ids.drop last then (0 : ℚ) else 1) ++ [0]

/-- The rows of the linear system solved in one iteration: row 0 is the new
hyperplane with value coefficient -1, then one row per selected old
hyperplane (again with -1 in the value column), then the boundary row. Rows
written in earlier iterations at later indices are not part of
`m.topRows(counter)` and rows at positions before `last` are overwritten
because `counter` restarts at 1, so exactly these rows are solved. -/
def stepRows (h : Vec) (alphas : List Vec) (S : ℕ) (ids : List ℕ) (last : ℕ) : List Vec :=
  (h ++ [-1]) ::
    ((alphaIdxs alphas.length ids last).map fun i => alphas.getD i [] ++ [-1])
    ++ [boundaryRow S alphas.length ids last]

/-- The right-hand side `b.head(counter)`: all zeros except a 1 in the
boundary row (`b[counter] = 1.0`, reset to 0 right after the solve). -/
def stepRhs (A : ℕ) (ids : List ℕ) (last : ℕ) : Vec :=
  List.replicate (rowCounterFinal A ids last) 0 ++ [1]

/-- One iteration of the inner loop: solve the assembled system and accept the
result as a vertex candidate only when every one of the first `S` coordinates
lies in `[0, 1]` (`result.head(S).array() >= 0 && <= 1.0`), pairing the point
with the value unknown `result[S]`. -/
def vertexStep (solver : List Vec → Vec → Vec) (h : Vec) (alphas : List Vec) (S : ℕ)
    (il : List ℕ × ℕ) : Option (Vec × ℚ) :=
  if ∀ x ∈ (solver (stepRows h alphas S il.1 il.2) (stepRhs alphas.length il.1 il.2)).take S,
      0 ≤ x ∧ x ≤ 1 then
    some ((solver (stepRows h alphas S il.1 il.2) (stepRhs alphas.length il.1 il.2)).take S,
      (solver (stepRows h alphas S il.1 il.2) (stepRhs alphas.length il.1 il.2)).getD S 0)
  else none

/-- `findVerticesNaive` (Polytope.hpp lines 41-121), parameterized by the
external linear-system solver: returns immediately when the old range is
empty, takes the dimension `S` from the first old hyperplane, and for each new
hyperplane appends the accepted candidates of every subset the inner loop
processes. -/
def findVerticesNaive (solver : List Vec → Vec → Vec) (newPlanes alphas : List Vec) :
    List (Vec × ℚ) :=
  if alphas.isEmpty then [] else
  newPlanes.flatMap fun h =>
    (subsetTrace (alphas.headD []).length alphas.length).filterMap
      (vertexStep solver h alphas (alphas.headD []).length)

/-- First row with a nonzero leading coefficient, and the remaining rows. -/
def findPivot (rows : List Vec) : Option (Vec × List Vec) :=
  match rows with
  | [] => none
  | r :: rs =>
    if r.headD 0 ≠ 0 then some (r, rs)
    else match findPivot rs with
         | some (p, rest) => some (p, r :: rest)
         | none => none

/-- Eliminate the leading column of `r` using pivot row `p` and drop it. -/
def elimRow (p r : Vec) : Vec :=
  (List.zipWith (fun x y => x - (r.headD 0 / p.headD 1) * y) r p).tail

/-- Gaussian elimination with back substitution on an augmented matrix with
`m` unknowns; returns the zero vector for the unknowns where no pivot exists. -/
def gaussAux : ℕ → List Vec → Vec
  | 0, _ => []
  | m + 1, rows =>
    match findPivot rows with
    | none => List.replicate (m + 1) 0
    | some (p, rest) =>
      (((p.getD (m + 1) 0) - dot ((p.drop 1).take m) (gaussAux m (rest.map (elimRow p)))) /
          p.headD 1) ::
        gaussAux m (rest.map (elimRow p))

/-- Modelled from the spec: the external linear system solver (Polytope.hpp
delegates to a dense decomposition not part of the shown source), which
"returns a real vector of size m solving (or least-squares-approximating) the
system" and "must tolerate singular or near-singular input without throwing".
On a square invertible system this exact Gaussian elimination returns the
unique solution; on a singular or underdetermined system it fills the
pivotless unknowns with zeros. -/
def gaussSolve (rows : List Vec) (rhs : Vec) : Vec :=
  gaussAux (rows.headD []).length (List.zipWith (fun r x => r ++ [x]) rows rhs)

/-- Modelled from the spec: the LP capability (LP.hpp is not in the shown
source) is "constructed for a given number of variables; supports: setting an
objective row and direction (maximize/minimize); declaring a variable
unbounded; appending a constraint row with a comparison kind and a right-hand
side scalar". `computeOptimisticValue` only maximizes, declares every
variable unbounded, and pushes LessEqual rows, so the data it hands to the
solver is exactly this. -/
structure LP where
  nvars : ℕ
  row : Vec
  constraints : List (Vec × ℚ)
deriving DecidableEq

/-- A variable assignment satisfying every LessEqual constraint of the LP;
all variables are unbounded, so no sign restriction applies. -/
def Feasible (lp : LP) (h : Vec) : Prop :=
  h.length = lp.nvars ∧ ∀ vc ∈ lp.constraints, dot vc.1 h ≤ vc.2

/-- `r` is the optimal objective value of the LP: attained by some feasible
assignment and an upper bound on the objective over all feasible assignments. -/
def IsOptimum (lp : LP) (r : ℚ) : Prop :=
  (∃ h, Feasible lp h ∧ dot lp.row h = r) ∧ ∀ h, Feasible lp h → dot lp.row h ≤ r

/-- The LP assembled by `computeOptimisticValue` (Polytope.hpp lines 148-185):
`S = p.size()` variables, objective row `p` (maximized), all variables
unbounded, and one `v · h <= value` row per known pair. -/
def buildLP (p : Vec) (pv : List (Vec × ℚ)) : LP := ⟨p.length, p, pv⟩

/-- `computeOptimisticValue` (Polytope.hpp lines 143-195), parameterized by
the external LP solver: returns 0 outright when the pair range is empty;
otherwise solves the assembled LP and returns its objective value, and the
`assert(solution)` on a failed solve is an explicit failure, modelled as an
error result. -/
def computeOptimisticValue (lpSolve : LP → Option ℚ) (p : Vec) (pv : List (Vec × ℚ)) :
    Except String ℚ :=
  if pv.length = 0 then .ok 0 else
  match lpSolve (buildLP p pv) with
  | some r => .ok r
  | none => .error "LP solve failed"

/-! ## Helper lemmas -/

theorem lastUnsat_lt_length (ids : List ℕ) (n : ℕ) (h : 0 < ids.length) :
    SubsetEnumerator.lastUnsat ids n < ids.length := by
  unfold SubsetEnumerator.lastUnsat
  have key : ∀ (l : List ℕ) (acc : ℕ), acc < ids.length → (∀ x ∈ l, x < ids.length) →
      l.foldl (fun acc p => if ids.getD p 0 ≠ n - ids.length + p then p else acc) acc <
        ids.length := by
    intro l
    induction l with
    | nil => intro acc hacc _; simpa using hacc
    | cons a t ih =>
      intro acc hacc hl
      simp only [List.foldl_cons]
      refine ih _ ?_ (fun x hx => hl x (List.mem_cons_of_mem _ hx))
      split
      · exact hl a (List.mem_cons_self a t)
      · exact hacc
  exact key _ 0 h (fun x hx => List.mem_range.mp hx)

theorem advance_length (ids : List ℕ) (n : ℕ) :
    (SubsetEnumerator.advance ids n).1.length = ids.length := by
  cases ids with
  | nil => rfl
  | cons a t =>
    have h := lastUnsat_lt_length (a :: t) n (by simp)
    simp only [SubsetEnumerator.advance, List.length_append, List.length_take,
      List.length_map, List.length_range]
    omega

theorem vertexIter_mem_length (n A fuel : ℕ) (ids0 : List ℕ) (last0 : ℕ)
    (ids : List ℕ) (last : ℕ)
    (hmem : (ids, last) ∈ vertexIter n A fuel ids0 last0) : ids.length = ids0.length := by
  induction fuel generalizing ids0 last0 with
  | zero => simp [vertexIter] at hmem
  | succ m ih =>
    rw [vertexIter] at hmem
    split at hmem
    · rcases List.mem_cons.mp hmem with heq | htail
      · rw [Prod.mk.injEq] at heq
        rw [heq.1]
      · split at htail
        · simp at htail
        · have := ih _ _ htail
          rw [this, advance_length]
    · simp at hmem

theorem subsetTrace_mem_length (S A : ℕ) (ids : List ℕ) (last : ℕ)
    (hmem : (ids, last) ∈ subsetTrace S A) : ids.length = S - 1 := by
  have := vertexIter_mem_length _ _ _ _ _ _ _ hmem
  simpa [SubsetEnumerator.reset] using this

theorem isOptimum_unique {lp : LP} {r s : ℚ} (hr : IsOptimum lp r) (hs : IsOptimum lp s) :
    r = s := by
  obtain ⟨⟨hr1, hrf, hrv⟩, hrb⟩ := hr
  obtain ⟨⟨hs1, hsf, hsv⟩, hsb⟩ := hs
  have h1 : r ≤ s := hrv ▸ hsb _ hrf
  have h2 : s ≤ r := hsv ▸ hrb _ hsf
  exact le_antisymm h1 h2

theorem computeOptimisticValue_ok_of_solve {lpSolve : LP → Option ℚ} {p : Vec}
    {pv : List (Vec × ℚ)} {r : ℚ} (hne : pv ≠ [])
    (h : computeOptimisticValue lpSolve p pv = .ok r) :
    lpSolve (buildLP p pv) = some r := by
  unfold computeOptimisticValue at h
  rw [if_neg (fun hc => hne (List.length_eq_zero.mp hc))] at h
  cases hsolve : lpSolve (buildLP p pv) with
  | none => rw [hsolve] at h; exact absurd h (by simp)
  | some q => rw [hsolve] at h; simp at h; rw [h]

/-- Evaluation helper for the C4 scenario: the only subset processed is `[0]`. -/
theorem c4_alphaIdxs : alphaIdxs 1 [0] 0 = [0] := by decide

theorem c4_boundary : boundaryRow 2 1 [0] 0 = [1, 1, 0] := by
  norm_num [boundaryRow, List.range_succ]

theorem c4_rows : stepRows [3, 1] [[1, 2]] 2 [0] 0 = [[3, 1, -1], [1, 2, -1], [1, 1, 0]] := by
  rw [stepRows]
  norm_num [c4_alphaIdxs, c4_boundary]

theorem c4_rhs : stepRhs 1 [0] 0 = [0, 0, 1] := by
  norm_num [stepRhs, rowCounterFinal, c4_alphaIdxs, List.replicate]

theorem c4_gauss : gaussSolve [[3, 1, -1], [1, 2, -1], [1, 1, 0]] [0, 0, 1] = [1/3, 2/3, 5/3] := by
  norm_num [gaussSolve, gaussAux, findPivot, elimRow, dot]

theorem c4_step : vertexStep gaussSolve [3, 1] [[1, 2]] 2 ([0], 0) = some ([1/3, 2/3], 5/3) := by
  rw [vertexStep]
  rw [show ([0], 0) = (([0] : List ℕ), (0 : ℕ)) from rfl]
  norm_num [c4_rows, c4_rhs, c4_gauss]

/-- The full evaluation of the C4 scenario: only the crossing point of the new
and the old hyperplane is produced. -/
theorem c4_eval : findVerticesNaive gaussSolve [[3, 1]] [[1, 2]] = [([1/3, 2/3], 5/3)] := by
  rw [findVerticesNaive]
  have ht : subsetTrace 2 1 = [([0], 0)] := by decide
  simp only [ht, List.filterMap_cons, List.filterMap_nil, c4_step,
    List.flatMap_cons, List.flatMap_nil, List.isEmpty_cons, Bool.false_eq_true, if_false,
    List.headD_cons, List.length_cons, List.length_nil, List.append_nil]
  norm_num [c4_step]

/-! ## Claim theorems -/

/-- C1: the claim states the inner loop of `findVerticesNaive` evaluates every
subset of size S-1 from `[0, |old|+S)` containing an index below `|old|`, and
terminates early only when the subset consists exclusively of boundary-facet
indices (first element already >= `|old|`). The code violates this: for S = 3
and two old hyperplanes the loop evaluates only the subset `[0, 1]` and then
terminates because advancing yields `[0, 2]` with first changed position 1
and entry 2 >= 2, even though `[0, 2]` still contains the old index 0. This
contradicts the code's own comment justifying the break ("we'd only have
boundaries"). -/
theorem findVerticesNaive_break_skips_mixed_subsets :
    subsetTrace 3 2 = [([0, 1], 0)] ∧
    [0, 2] ∉ (subsetTrace 3 2).map Prod.fst ∧
    (0 : ℕ) ∈ [0, 2] ∧ (0 : ℕ) < 2 := by decide

/-- C4: the claim expects, for S = 2, new hyperplane (3, 1) and old
hyperplane (1, 2), at least the two boundary-intersection vertices at
coordinate 0 and coordinate 1 in addition to the crossing point. The code
returns only the crossing point (1/3, 2/3) with value 5/3: the candidates at
the simplex corners come from boundary-only subsets, which the loop
deliberately never evaluates. -/
theorem findVerticesNaive_concrete_no_boundary_corners :
    findVerticesNaive gaussSolve [[3, 1]] [[1, 2]] = [([1/3, 2/3], 5/3)] ∧
    ([1, 0] : Vec) ∉ (findVerticesNaive gaussSolve [[3, 1]] [[1, 2]]).map Prod.fst ∧
    ([0, 1] : Vec) ∉ (findVerticesNaive gaussSolve [[3, 1]] [[1, 2]]).map Prod.fst := by
  refine ⟨c4_eval, ?_, ?_⟩ <;> rw [c4_eval] <;> norm_num

/-- C4 (amended): for S = 2, new hyperplane (3, 1), old hyperplanes
[(1, 2)], `findVerticesNaive` returns exactly one vertex, the intersection
point (1/3, 2/3) of the new and the old hyperplane with value 5/3; its
coordinates sum to 1 and lie within [0, 1]. Boundary-only corners are
deliberately not returned. -/
theorem findVerticesNaive_concrete_intersection :
    findVerticesNaive gaussSolve [[3, 1]] [[1, 2]] = [([1/3, 2/3], 5/3)] ∧
    (∀ pv ∈ findVerticesNaive gaussSolve [[3, 1]] [[1, 2]],
      pv.1.sum = 1 ∧ ∀ x ∈ pv.1, 0 ≤ x ∧ x ≤ 1) := by
  refine ⟨c4_eval, ?_⟩
  rw [c4_eval]
  norm_num

/-- C7: for every sequence of new hyperplanes and every solver,
`findVerticesNaive` with an empty old (context) range returns the empty list;
the quantification over the solver shows no linear system is ever solved. -/
theorem findVerticesNaive_empty_context (solver : List Vec → Vec → Vec)
    (newPlanes : List Vec) : findVerticesNaive solver newPlanes [] = [] := rfl

/-- C8: for every query point and every LP solver, `computeOptimisticValue`
with an empty pair sequence returns exactly 0; the quantification over the
solver shows no LP is ever constructed or solved. -/
theorem computeOptimisticValue_empty_pairs (lpSolve : LP → Option ℚ) (p : Vec) :
    computeOptimisticValue lpSolve p [] = .ok 0 := rfl

/-- C9: `findVerticesNaive` is deterministic: two calls on identical inputs
return identical lists, and in particular equal multisets of candidates. The
embedding is a pure function of its inputs because the C++ function owns all
of its working state. -/
theorem findVerticesNaive_deterministic (solver : List Vec → Vec → Vec)
    (newPlanes alphas : List Vec) :
    findVerticesNaive solver newPlanes alphas = findVerticesNaive solver newPlanes alphas ∧
    (findVerticesNaive solver newPlanes alphas : Multiset (Vec × ℚ)) =
      (findVerticesNaive solver newPlanes alphas : Multiset (Vec × ℚ)) :=
  ⟨rfl, rfl⟩

/-- C10: for every non-empty old range with dimension S >= 1 and every
subset/last pair the inner loop processes, the row counter at the moment the
boundary row is written is at most S: the subset has S - 1 elements, so at
most S - 1 old-hyperplane rows follow row 0, plus the single boundary row.
Every access `m.row(counter)`, `b[counter]` (both at indices <= this value)
and `b[counter-1]` therefore stays inside the S + 1 allocated rows of `m` and
entries of `b`. -/
theorem rowCounter_within_allocated_rows (S A : ℕ) (ids : List ℕ) (last : ℕ)
    (hS : 1 ≤ S) (hA : 1 ≤ A) (hmem : (ids, last) ∈ subsetTrace S A) :
    rowCounterFinal A ids last ≤ S ∧ rowCounterFinal A ids last < S + 1 := by
  have hlen := subsetTrace_mem_length S A ids last hmem
  have h1 : (alphaIdxs A ids last).length ≤ ids.length :=
    le_trans (List.length_filter_le _ _) (by rw [List.length_drop]; omega)
  unfold rowCounterFinal
  omega

/-- Witness for C10 at S = 2, one old hyperplane: the only processed subset is
`[0]` and the boundary row is written at row 2, within the 3 allocated rows. -/
theorem rowCounter_within_allocated_rows_witness :
    rowCounterFinal 1 [0] 0 ≤ 2 ∧ rowCounterFinal 1 [0] 0 < 3 :=
  rowCounter_within_allocated_rows 2 1 [0] 0 (by decide) (by decide) (by decide)

/-- C3: every vertex candidate in the output of `findVerticesNaive` has all
its point coordinates inside the closed interval [0, 1]; a solved result with
a coordinate outside [0, 1] is filtered out and contributes nothing. The
statement holds for an arbitrary external linear-system solver. -/
theorem findVerticesNaive_coords_in_unit_interval (solver : List Vec → Vec → Vec)
    (newPlanes alphas : List Vec) (pv : Vec × ℚ)
    (hmem : pv ∈ findVerticesNaive solver newPlanes alphas) :
    ∀ x ∈ pv.1, 0 ≤ x ∧ x ≤ 1 := by
  rw [findVerticesNaive] at hmem
  split at hmem
  · simp at hmem
  · simp only [List.mem_flatMap, List.mem_filterMap] at hmem
    obtain ⟨h, _, il, _, hstep⟩ := hmem
    rw [vertexStep] at hstep
    split at hstep
    · rename_i hcond
      rw [Option.some.injEq] at hstep
      subst hstep
      exact hcond
    · exact absurd hstep (by simp)

/-- Witness for C3 at the concrete C4 scenario: the returned candidate
(1/3, 2/3) has both coordinates inside [0, 1]. -/
theorem findVerticesNaive_coords_in_unit_interval_witness :
    0 ≤ (1/3 : ℚ) ∧ (1/3 : ℚ) ≤ 1 :=
  findVerticesNaive_coords_in_unit_interval gaussSolve [[3, 1]] [[1, 2]]
    ([1/3, 2/3], 5/3)
    (by rw [c4_eval]; exact List.mem_singleton_self _)
    (1/3) (List.mem_cons_self _ _)

/-- C2: when the pair range is non-empty and the external LP capability
reports a failed solution, `computeOptimisticValue` surfaces the failure as an
explicit error (the `assert(solution)` in the source) and never returns a
numeric value, for any query point and any LP solver. -/
theorem computeOptimisticValue_surfaces_lp_failure (lpSolve : LP → Option ℚ) (p : Vec)
    (pv : List (Vec × ℚ)) (hne : pv ≠ []) (hfail : lpSolve (buildLP p pv) = none) :
    computeOptimisticValue lpSolve p pv = .error "LP solve failed" ∧
    ∀ r : ℚ, computeOptimisticValue lpSolve p pv ≠ .ok r := by
  have h : computeOptimisticValue lpSolve p pv = .error "LP solve failed" := by
    unfold computeOptimisticValue
    rw [if_neg (fun hc => hne (List.length_eq_zero.mp hc)), hfail]
  exact ⟨h, fun r hr => by rw [h] at hr; exact Except.noConfusion hr⟩

/-- Witness for C2: a solver that always fails makes the function return the
error, not a value. -/
theorem computeOptimisticValue_surfaces_lp_failure_witness :
    computeOptimisticValue (fun _ => none) [1] [([1], 1)] = .error "LP solve failed" ∧
    ∀ r : ℚ, computeOptimisticValue (fun _ => none) [1] [([1], 1)] ≠ .ok r :=
  computeOptimisticValue_surfaces_lp_failure _ [1] [([1], 1)] (List.cons_ne_nil _ _) rfl

/-! ## LP optimality helpers for the concrete scenarios -/

theorem buildLP_row (p : Vec) (pv : List (Vec × ℚ)) : (buildLP p pv).row = p := rfl

theorem buildLP_constraints (p : Vec) (pv : List (Vec × ℚ)) :
    (buildLP p pv).constraints = pv := rfl

theorem buildLP_nvars (p : Vec) (pv : List (Vec × ℚ)) : (buildLP p pv).nvars = p.length := rfl

/-- The LP assembled in the C6 scenario. -/
def c6lp : LP := buildLP [1/2, 1/2] [([1, 0], 2), ([0, 1], 4)]

theorem c6lp_optimum : IsOptimum c6lp 3 := by
  constructor
  · refine ⟨[2, 4], ⟨rfl, ?_⟩, by norm_num [dot, c6lp, buildLP_row, buildLP_constraints]⟩
    intro vc hvc
    rcases List.mem_cons.mp hvc with h | h
    · subst h; norm_num [dot, c6lp, buildLP_row, buildLP_constraints]
    · rw [List.mem_singleton.mp h]; norm_num [dot, c6lp, buildLP_row, buildLP_constraints]
  · rintro h ⟨hlen, hc⟩
    obtain ⟨a, b, rfl⟩ := List.length_eq_two.mp hlen
    have h1 := hc ([1, 0], 2) (List.mem_cons_self _ _)
    have h2 := hc ([0, 1], 4) (List.mem_cons_of_mem _ (List.mem_singleton_self _))
    simp only [dot, c6lp, buildLP_row, List.zipWith_cons_cons, List.zipWith_nil_right,
      List.zipWith_nil_left, List.sum_cons, List.sum_nil] at h1 h2 ⊢
    linarith

theorem c5K_optimum : IsOptimum (buildLP [1] [([1], 2)]) 2 := by
  constructor
  · refine ⟨[2], ⟨rfl, ?_⟩, by norm_num [dot, c6lp, buildLP_row, buildLP_constraints]⟩
    intro vc hvc
    rw [List.mem_singleton.mp hvc]
    norm_num [dot, c6lp, buildLP_row, buildLP_constraints]
  · rintro h ⟨hlen, hc⟩
    obtain ⟨a, rfl⟩ := List.length_eq_one.mp hlen
    have h1 := hc ([1], 2) (List.mem_singleton_self _)
    simp only [dot, buildLP_row, List.zipWith_cons_cons, List.zipWith_nil_right,
      List.zipWith_nil_left, List.sum_cons, List.sum_nil] at h1 ⊢
    linarith

theorem c5Kext_optimum : IsOptimum (buildLP [1] [([1], 2), ([1], 1)]) 1 := by
  constructor
  · refine ⟨[1], ⟨rfl, ?_⟩, by norm_num [dot, c6lp, buildLP_row, buildLP_constraints]⟩
    intro vc hvc
    rcases List.mem_cons.mp hvc with h | h
    · subst h; norm_num [dot, c6lp, buildLP_row, buildLP_constraints]
    · rw [List.mem_singleton.mp h]; norm_num [dot, c6lp, buildLP_row, buildLP_constraints]
  · rintro h ⟨hlen, hc⟩
    obtain ⟨a, rfl⟩ := List.length_eq_one.mp hlen
    have h2 := hc ([1], 1) (List.mem_cons_of_mem _ (List.mem_singleton_self _))
    simp only [dot, buildLP_row, List.zipWith_cons_cons, List.zipWith_nil_right,
      List.zipWith_nil_left, List.sum_cons, List.sum_nil] at h2 ⊢
    linarith

theorem c5bad_optimum : IsOptimum (buildLP [1] ([] ++ [([1], 5)])) 5 := by
  constructor
  · refine ⟨[5], ⟨rfl, ?_⟩, by norm_num [dot, c6lp, buildLP_row, buildLP_constraints]⟩
    intro vc hvc
    rw [List.mem_singleton.mp hvc]
    norm_num [dot, c6lp, buildLP_row, buildLP_constraints]
  · rintro h ⟨hlen, hc⟩
    obtain ⟨a, rfl⟩ := List.length_eq_one.mp hlen
    have h1 := hc ([1], 5) (List.mem_singleton_self _)
    simp only [dot, buildLP_row, List.zipWith_cons_cons, List.zipWith_nil_right,
      List.zipWith_nil_left, List.sum_cons, List.sum_nil] at h1 ⊢
    linarith

/-- An LP solver that answers the two LPs of the C5 witness scenario with
their exact optima. -/
def c5Solver (lp : LP) : Option ℚ := if lp.constraints.length ≤ 1 then some 2 else some 1

/-! ## Claim theorems for the LP component -/

/-- C5 (counterexample): the claim quantifies over every sequence K of known
pairs, including the empty one, but for K = [] the function short-circuits to
0 without any LP, while appending the pair ([1], 5) yields an LP whose exact
optimum 5 is returned: 5 is not <= 0, so adding a constraint increased the
returned bound. -/
theorem computeOptimisticValue_not_monotone_from_empty :
    computeOptimisticValue (fun _ => some 5) [1] ([] ++ [([1], 5)]) = .ok 5 ∧
    IsOptimum (buildLP [1] ([] ++ [([1], 5)])) 5 ∧
    computeOptimisticValue (fun _ => some 5) [1] [] = .ok 0 ∧
    ¬ ((5 : ℚ) ≤ 0) :=
  ⟨rfl, c5bad_optimum, rfl, by norm_num⟩

/-- C5 (amended): for every query point p, every NON-EMPTY sequence K of
known pairs and every additional pair appended to it, whenever the LP solver
returns the true optimum on both assembled LPs and both calls succeed, the
value computed with the appended pair is at most the value computed without
it: the appended LP's feasible set is contained in the original one. -/
theorem computeOptimisticValue_monotone_append (lpSolve : LP → Option ℚ) (p : Vec)
    (K : List (Vec × ℚ)) (e : Vec × ℚ) (r r' : ℚ) (hK : K ≠ [])
    (h1 : ∀ q, lpSolve (buildLP p K) = some q → IsOptimum (buildLP p K) q)
    (h2 : ∀ q, lpSolve (buildLP p (K ++ [e])) = some q → IsOptimum (buildLP p (K ++ [e])) q)
    (hr : computeOptimisticValue lpSolve p K = .ok r)
    (hr' : computeOptimisticValue lpSolve p (K ++ [e]) = .ok r') :
    r' ≤ r := by
  have hK' : K ++ [e] ≠ [] := by intro hc; simp at hc
  have hopt := h1 r (computeOptimisticValue_ok_of_solve hK hr)
  have hopt' := h2 r' (computeOptimisticValue_ok_of_solve hK' hr')
  obtain ⟨⟨h, ⟨hlen, hc⟩, hv⟩, _⟩ := hopt'
  have hfeas : Feasible (buildLP p K) h :=
    ⟨hlen, fun vc hvc => hc vc (List.mem_append_left _ hvc)⟩
  have h3 : dot p h ≤ r := hopt.2 h hfeas
  have h4 : dot p h = r' := hv
  linarith

/-- Witness for C5 (amended), S = 1: K = [([1], 2)] has optimum 2, appending
([1], 1) gives optimum 1, and 1 <= 2. -/
theorem computeOptimisticValue_monotone_append_witness : (1 : ℚ) ≤ 2 :=
  computeOptimisticValue_monotone_append c5Solver [1] [([1], 2)] ([1], 1) 2 1
    (List.cons_ne_nil _ _)
    (fun q hq => by
      simp only [c5Solver, buildLP] at hq
      norm_num at hq
      exact hq ▸ c5K_optimum)
    (fun q hq => by
      simp only [c5Solver, buildLP] at hq
      norm_num at hq
      exact hq ▸ c5Kext_optimum)
    rfl rfl

/-- C6: for the query point (1/2, 1/2) and known pairs
[((1,0), 2), ((0,1), 4)], `computeOptimisticValue` assembles exactly the LP
maximizing 1/2 h0 + 1/2 h1 subject to h0 <= 2 and h1 <= 4 over 2 unbounded
variables, whose optimum is 3; with any LP solver that returns the true
optimum of this LP and succeeds on it, the function returns 3. -/
theorem computeOptimisticValue_concrete (lpSolve : LP → Option ℚ)
    (hsound : ∀ q, lpSolve c6lp = some q → IsOptimum c6lp q)
    (hsome : lpSolve c6lp ≠ none) :
    buildLP [1/2, 1/2] [([1, 0], 2), ([0, 1], 4)] =
      ⟨2, [1/2, 1/2], [([1, 0], 2), ([0, 1], 4)]⟩ ∧
    IsOptimum c6lp 3 ∧
    computeOptimisticValue lpSolve [1/2, 1/2] [([1, 0], 2), ([0, 1], 4)] = .ok 3 := by
  refine ⟨rfl, c6lp_optimum, ?_⟩
  unfold computeOptimisticValue
  rw [if_neg (by simp)]
  rw [show buildLP [1/2, 1/2] [([1, 0], 2), ([0, 1], 4)] = c6lp from rfl]
  cases hs : lpSolve c6lp with
  | none => exact absurd hs hsome
  | some q =>
    have : q = 3 := isOptimum_unique (hsound q hs) c6lp_optimum
    rw [this]

/-- Witness for C6: a solver answering 3 on the assembled LP is sound for it,
and the function returns 3. -/
theorem computeOptimisticValue_concrete_witness :
    computeOptimisticValue (fun _ => some 3) [1/2, 1/2] [([1, 0], 2), ([0, 1], 4)] = .ok 3 :=
  (computeOptimisticValue_concrete (fun _ => some 3)
    (fun q hq => by
      simp only [Option.some.injEq] at hq
      exact hq ▸ c6lp_optimum)
    (by simp)).2.2

end AIToolbox
